import Mathlib

/-!
Verification of the static blog generator (`generate_blogs.py`).

The script is embedded shallowly over `List Char`: every regex substitution
pass of `compile_markdown`, the slug generator `create_slug`, the footnote
extraction and removal at module top level, and the page assembly are
translated into executable Lean functions.  Python regex passes are modelled
by left-to-right scanners that, at each position, either take the leftmost
match (with the lazy/greedy semantics of the concrete pattern, worked out
per pattern) and continue after it, or advance one character — exactly the
behaviour of `re.sub` / `re.finditer`.  Character classes: `\s` is modelled
by the whitespace set Python's `re` uses for `str` patterns, `\d` by the
ASCII digits (the inputs considered are ASCII; other Unicode decimal digits
are not modelled).  `str.lower` is modelled on ASCII letters.
-/

/-- The backtick character (written via its code point). -/
def backtickChar : Char := Char.ofNat 96

/-- Whitespace as matched by Python's `\s` (and `str.isspace`) for `str` patterns. -/
def isWsB (c : Char) : Bool :=
  c = ' ' || c = '\t' || c = '\n' || c = '\r' || c = Char.ofNat 11 || c = Char.ofNat 12 ||
  c = Char.ofNat 28 || c = Char.ofNat 29 || c = Char.ofNat 30 || c = Char.ofNat 31 ||
  c = Char.ofNat 133 || c = Char.ofNat 160 || c = Char.ofNat 0x1680 ||
  (0x2000 ≤ c.toNat && c.toNat ≤ 0x200a) || c = Char.ofNat 0x2028 || c = Char.ofNat 0x2029 ||
  c = Char.ofNat 0x202f || c = Char.ofNat 0x205f || c = Char.ofNat 0x3000

/-- Python `str.strip()`: remove leading and trailing whitespace. -/
def pyStrip (s : List Char) : List Char :=
  ((s.dropWhile isWsB).reverse.dropWhile isWsB).reverse

/-- Lowercase ASCII letter or ASCII digit: the class `[a-z0-9]` of `create_slug`. -/
def isLowerAlnum (c : Char) : Bool :=
  ('a' ≤ c && c ≤ 'z') || ('0' ≤ c && c ≤ '9')

/-- `filename.replace('.md', '')` — Python `str.replace` removes every
left-to-right non-overlapping occurrence of `.md`, not only a suffix. -/
def replaceMd : List Char → List Char
  | '.' :: 'm' :: 'd' :: rest => replaceMd rest
  | c :: rest => c :: replaceMd rest
  | [] => []

/-- Whether `.md` occurs as a substring. -/
def containsMd : List Char → Bool
  | '.' :: 'm' :: 'd' :: _ => true
  | _ :: rest => containsMd rest
  | [] => false

/-- One step state of `re.sub(r'[^a-z0-9]+', '-', s)`: the Bool records whether
we are inside a run of characters outside `[a-z0-9]` (whose dash was emitted). -/
def collapseAux : Bool → List Char → List Char
  | _, [] => []
  | inRun, c :: cs =>
    if isLowerAlnum c then c :: collapseAux false cs
    else if inRun then collapseAux true cs
    else '-' :: collapseAux true cs

/-- `re.sub(r'[^a-z0-9]+', '-', s)`: each maximal run of characters outside
`[a-z0-9]` becomes a single `-`. -/
def collapseRuns (s : List Char) : List Char := collapseAux false s

/-- Python `str.strip('-')`: remove leading and trailing dashes. -/
def stripDash (s : List Char) : List Char :=
  (((s.dropWhile (fun c => c = '-')).reverse).dropWhile (fun c => c = '-')).reverse

/-- `create_slug` from `generate_blogs.py` (lines 81–89): strip `.md`
occurrences, lowercase, collapse non-alphanumeric runs to `-`, strip dashes,
and prefix `post-` when the result starts with a digit. -/
def create_slug (filename : List Char) : List Char :=
  let s1 := replaceMd filename
  let s2 := collapseRuns (s1.map Char.toLower)
  let s3 := stripDash s2
  match s3 with
  | [] => []
  | c :: rest => if c.isDigit then "post-".toList ++ (c :: rest) else c :: rest

/-! ## The generic substitution scanner

`re.sub` scans left to right; at each position it either takes the leftmost
match and continues right after it (never rescanning the replacement), or
advances one character.  A matcher returns the replacement text together
with `k`, the number of consumed characters minus one.  The fuel argument
bounds the length of the remaining input, making the scanner structurally
recursive and hence fully evaluable. -/

def scanSubF (m : List Char → Option (List Char × Nat)) : Nat → List Char → List Char
  | _, [] => []
  | 0, s => s
  | fuel + 1, c :: cs =>
    match m (c :: cs) with
    | some (out, k) => out ++ scanSubF m fuel (cs.drop k)
    | none => c :: scanSubF m fuel cs

def scanSub (m : List Char → Option (List Char × Nat)) (s : List Char) : List Char :=
  scanSubF m s.length s

theorem scanSubF_congr (m : List Char → Option (List Char × Nat)) :
    ∀ (f₁ f₂ : Nat) (s : List Char), s.length ≤ f₁ → s.length ≤ f₂ →
      scanSubF m f₁ s = scanSubF m f₂ s := by
  intro f₁
  induction f₁ with
  | zero =>
    intro f₂ s h₁ _
    have hs : s = [] := List.eq_nil_of_length_eq_zero (Nat.le_zero.mp h₁)
    subst hs; cases f₂ <;> rfl
  | succ f ih =>
    intro f₂ s h₁ h₂
    cases s with
    | nil => cases f₂ <;> rfl
    | cons c cs =>
      cases f₂ with
      | zero => exact absurd h₂ (by simp)
      | succ f₂' =>
        simp only [List.length_cons, Nat.succ_le_succ_iff] at h₁ h₂
        show (match m (c :: cs) with
              | some (out, k) => out ++ scanSubF m f (cs.drop k)
              | none => c :: scanSubF m f cs) =
             (match m (c :: cs) with
              | some (out, k) => out ++ scanSubF m f₂' (cs.drop k)
              | none => c :: scanSubF m f₂' cs)

        cases hm : m (c :: cs) with
        | none => simp only; rw [ih f₂' cs h₁ h₂]
        | some p =>
          obtain ⟨out, k⟩ := p
          simp only
          rw [ih f₂' (cs.drop k) (le_trans (by simp) h₁) (le_trans (by simp) h₂)]

theorem scanSub_nil (m : List Char → Option (List Char × Nat)) : scanSub m [] = [] := rfl

theorem scanSub_cons_none (m : List Char → Option (List Char × Nat)) (c : Char)
    (cs : List Char) (h : m (c :: cs) = none) : scanSub m (c :: cs) = c :: scanSub m cs := by
  simp [scanSub, scanSubF, h]

theorem scanSub_cons_some (m : List Char → Option (List Char × Nat)) (c : Char)
    (cs out : List Char) (k : Nat) (h : m (c :: cs) = some (out, k)) :
    scanSub m (c :: cs) = out ++ scanSub m (cs.drop k) := by
  simp only [scanSub, List.length_cons, scanSubF, h]
  congr 1
  exact scanSubF_congr m cs.length (cs.drop k).length (cs.drop k) (by simp) (le_refl _)

/-- If the matcher matches at no suffix, the scanner is the identity. -/
theorem scanSub_eq_self (m : List Char → Option (List Char × Nat)) :
    ∀ s : List Char, (∀ s₁ s₂ : List Char, s₁ ++ s₂ = s → m s₂ = none) → scanSub m s = s := by
  intro s
  induction s with
  | nil => intro _; rfl
  | cons c cs ih =>
    intro h
    rw [scanSub_cons_none m c cs (h [] (c :: cs) rfl)]
    rw [ih (fun s₁ s₂ hs => h (c :: s₁) s₂ (by simp [hs]))]

/-! ## The passes of `compile_markdown` (lines 48–63), in source order. -/

/-- `out.replace("\\_", "_")` (line 51). -/
def unescUnderscore : List Char → List Char
  | '\\' :: '_' :: rest => '_' :: unescUnderscore rest
  | c :: rest => c :: unescUnderscore rest
  | [] => []

/-- Does the list start with `### ` (a space after exactly the three hashes tested)? -/
def h4Test : List Char → Bool
  | a :: b :: c :: d :: _ => a = '#' && b = '#' && c = '#' && d = ' '
  | _ => false

/-- Matcher for `re.sub(r"### (.+?)\n", r"<h4>\1</h4>\n", out)` (line 52): the
pattern is unanchored, `.` excludes the newline, and the lazy group must be
non-empty and followed by a literal newline. -/
def matchH4 (s : List Char) : Option (List Char × Nat) :=
  if h4Test s then
    let r := s.drop 4
    let t := r.takeWhile (fun c => c ≠ '\n')
    if t.isEmpty then none
    else
      match r.dropWhile (fun c => c ≠ '\n') with
      | '\n' :: _ => some ("<h4>".toList ++ t ++ "</h4>\n".toList, 4 + t.length)
      | _ => none
  else none

def h3Test : List Char → Bool
  | a :: b :: c :: _ => a = '#' && b = '#' && c = ' '
  | _ => false

/-- Matcher for `re.sub(r"## (.+?)\n", r"<h3>\1</h3>\n", out)` (line 53). -/
def matchH3 (s : List Char) : Option (List Char × Nat) :=
  if h3Test s then
    let r := s.drop 3
    let t := r.takeWhile (fun c => c ≠ '\n')
    if t.isEmpty then none
    else
      match r.dropWhile (fun c => c ≠ '\n') with
      | '\n' :: _ => some ("<h3>".toList ++ t ++ "</h3>\n".toList, 3 + t.length)
      | _ => none
  else none

def httpsTest : List Char → Bool
  | 'h' :: 't' :: 't' :: 'p' :: 's' :: ':' :: '/' :: '/' :: _ => true
  | _ => false

/-- Matcher for `re.sub(r"https://([^\s<]+)(\s)", ...)` (line 54): a greedy
non-empty run of characters that are neither whitespace nor `<`, which must be
followed by a whitespace character (kept after the closing tag). -/
def matchAutolink (s : List Char) : Option (List Char × Nat) :=
  if httpsTest s then
    let r := s.drop 8
    let u := r.takeWhile (fun c => !isWsB c && c ≠ '<')
    if u.isEmpty then none
    else
      match r.dropWhile (fun c => !isWsB c && c ≠ '<') with
      | w :: _ =>
        if isWsB w then
          some ("<a href='https://".toList ++ u ++ "'>https://".toList ++ u ++ "</a>".toList ++ [w],
                8 + u.length)
        else none
      | [] => none
  else none

/-- Do the first two characters exist and both equal a backtick? -/
def ticks2 : List Char → Bool
  | a :: b :: _ => a = backtickChar && b = backtickChar
  | _ => false

/-- Index of the first occurrence of a triple backtick. -/
def findTicks : List Char → Option Nat
  | [] => none
  | c :: rest =>
    if c = backtickChar && ticks2 rest then some 0
    else (findTicks rest).map (· + 1)

def hsTest : List Char → Bool
  | a :: b :: c :: 'h' :: 's' :: '\n' :: _ =>
    a = backtickChar && b = backtickChar && c = backtickChar
  | _ => false

/-- Matcher for `re.sub(r"```hs\n(.*?)```", ..., flags=re.DOTALL)` (line 56):
lazy interior (may span lines) up to the first closing triple backtick. -/
def matchHs (s : List Char) : Option (List Char × Nat) :=
  if hsTest s then
    let r := s.drop 6
    match findTicks r with
    | some i =>
      some ("<pre><code class='language-haskell'>".toList ++ r.take i ++ "</code></pre>".toList,
            8 + i)
    | none => none
  else none

def ticks3Test : List Char → Bool
  | a :: b :: c :: _ => a = backtickChar && b = backtickChar && c = backtickChar
  | _ => false

/-- Matcher for `re.sub(r"```(.*?)```", ..., flags=re.DOTALL)` (line 57). -/
def matchGen (s : List Char) : Option (List Char × Nat) :=
  if ticks3Test s then
    let r := s.drop 3
    match findTicks r with
    | some i => some ("<pre><code>".toList ++ r.take i ++ "</code></pre>".toList, 5 + i)
    | none => none
  else none

def star2 : List Char → Bool
  | a :: b :: _ => a = '*' && b = '*'
  | _ => false

def star1 : List Char → Bool
  | a :: _ => a = '*'
  | _ => false

/-- Length of the shortest non-empty newline-free group followed by `**`. -/
def findClose2 : List Char → Option Nat
  | [] => none
  | c :: rest =>
    if c = '\n' then none
    else if star2 rest then some 1
    else (findClose2 rest).map (· + 1)

/-- Length of the shortest non-empty newline-free group followed by `*`. -/
def findClose1 : List Char → Option Nat
  | [] => none
  | c :: rest =>
    if c = '\n' then none
    else if star1 rest then some 1
    else (findClose1 rest).map (· + 1)

/-- Matcher for `re.sub(r"\*\*(.+?)\*\*", r"<strong>\1</strong>", out)` (line 59):
the lazy group has no newline (no DOTALL). -/
def matchBold (s : List Char) : Option (List Char × Nat) :=
  if star2 s then
    let r := s.drop 2
    match findClose2 r with
    | some i => some ("<strong>".toList ++ r.take i ++ "</strong>".toList, 3 + i)
    | none => none
  else none

/-- Matcher for `re.sub(r"\*(.+?)\*", r"<em>\1</em>", out)` (line 60). -/
def matchItalic (s : List Char) : Option (List Char × Nat) :=
  if star1 s then
    let r := s.drop 1
    match findClose1 r with
    | some i => some ("<em>".toList ++ r.take i ++ "</em>".toList, 1 + i)
    | none => none
  else none

def h4Sub (s : List Char) : List Char := scanSub matchH4 s
def h3Sub (s : List Char) : List Char := scanSub matchH3 s
def autolinkSub (s : List Char) : List Char := scanSub matchAutolink s
def hsSub (s : List Char) : List Char := scanSub matchHs s
def genSub (s : List Char) : List Char := scanSub matchGen s
def boldSub (s : List Char) : List Char := scanSub matchBold s
def italicSub (s : List Char) : List Char := scanSub matchItalic s

/-- `out.replace("\r\n", "\n")` (line 61, first step). -/
def replCRLF : List Char → List Char
  | '\r' :: '\n' :: rest => '\n' :: replCRLF rest
  | c :: rest => c :: replCRLF rest
  | [] => []

/-- `.replace("\r", "\n")` (line 61, second step). -/
def replCR : List Char → List Char
  | '\r' :: rest => '\n' :: replCR rest
  | c :: rest => c :: replCR rest
  | [] => []

/-- `out.replace("\n", "<br>")` (line 62). -/
def nlToBr : List Char → List Char
  | '\n' :: rest => "<br>".toList ++ nlToBr rest
  | c :: rest => c :: nlToBr rest
  | [] => []

/-- `compile_markdown` (lines 48–63): the ten passes in source order. -/
def compile_markdown (s : List Char) : List Char :=
  nlToBr (replCR (replCRLF (italicSub (boldSub (genSub (hsSub
    (autolinkSub (h3Sub (h4Sub (unescUnderscore s))))))))))

/-! ## Footnote extraction and removal (lines 29–37)

`re.sub(r"^\[\^\d+\]:.*(?:\n|$)", "", raw, flags=re.MULTILINE)` deletes exactly
the whole lines (with their terminator) that begin with a footnote marker
`[^<digits>]:`, so removal is embedded as a filter over the line decomposition.

`re.finditer(r"^\[\^(\d+)\]:\s*(.+)$", raw, flags=re.MULTILINE)` is subtler:
`\s*` may consume the line break, so when everything after the colon up to the
end of the line is whitespace the group `(.+)` is taken from the first
following line that contains a non-whitespace character (checked against
CPython); if instead the whitespace run reaches the end of the input, a match
with an (after `strip`) empty text exists iff the run contains a non-newline
whitespace character (via backtracking of the greedy `\s*`). -/

/-- Decompose into lines, each keeping its trailing newline (the final line
may lack one); concatenating the lines gives back the original text. -/
def linesKeepEol : List Char → List (List Char)
  | [] => []
  | c :: cs =>
    if c = '\n' then ['\n'] :: linesKeepEol cs
    else
      match linesKeepEol cs with
      | [] => [[c]]
      | l :: ls => (c :: l) :: ls

def joinAll : List (List Char) → List Char
  | [] => []
  | l :: ls => l ++ joinAll ls

/-- Numeric value of a list of ASCII digits (`int(m.group(1))`). -/
def natOfDigits (ds : List Char) : Nat :=
  ds.foldl (fun a c => 10 * a + (c.toNat - 48)) 0

/-- Parse the footnote marker `[^<digits>]:` at the start of a line, returning
the number and the remainder of the line after the colon. -/
def parseMarkerLine : List Char → Option (Nat × List Char)
  | '[' :: '^' :: r =>
    let ds := r.takeWhile Char.isDigit
    if ds.isEmpty then none
    else
      match r.dropWhile Char.isDigit with
      | ']' :: ':' :: rest => some (natOfDigits ds, rest)
      | _ => none
  | _ => none

def isMarkerLine (l : List Char) : Bool := (parseMarkerLine l).isSome

/-- The cleaned text: `re.sub(r"^\[\^\d+\]:.*(?:\n|$)", "", raw, flags=re.MULTILINE)`
(line 36) — every marker line is deleted together with its terminator. -/
def removeFootnoteLines (s : List Char) : List Char :=
  joinAll ((linesKeepEol s).filter (fun l => !isMarkerLine l))

/-- First line containing a non-whitespace character, with its index. -/
def findContentLine : List (List Char) → Option (List Char × Nat)
  | [] => none
  | l :: ls =>
    if (l.dropWhile isWsB).isEmpty then (findContentLine ls).map (fun p => (p.1, p.2 + 1))
    else some (l, 0)

def hasNonNl (l : List Char) : Bool := l.any (fun c => c ≠ '\n')

/-- The `finditer` loop over the line decomposition; the fuel bounds the
number of remaining lines. -/
def extractAuxF : Nat → List (List Char) → List (Nat × List Char)
  | _, [] => []
  | 0, _ => []
  | fuel + 1, l :: ls =>
    match parseMarkerLine l with
    | none => extractAuxF fuel ls
    | some (n, rest) =>
      if (rest.dropWhile isWsB).isEmpty then
        match findContentLine ls with
        | some (mline, i) => (n, pyStrip mline) :: extractAuxF fuel (ls.drop (i + 1))
        | none => if hasNonNl rest || ls.any hasNonNl then [(n, [])] else []
      else (n, pyStrip rest) :: extractAuxF fuel ls

/-- The footnote list collected by the loop at lines 29–33, in source order. -/
def extractFootnotes (s : List Char) : List (Nat × List Char) :=
  extractAuxF (linesKeepEol s).length (linesKeepEol s)

/-! ## Page assembly (lines 92–116) -/

/-- One hexadecimal digit, lowercase. -/
def hexDigit (n : Nat) : Char := if n < 10 then Char.ofNat (48 + n) else Char.ofNat (87 + n)

/-- A `\uXXXX` escape. -/
def uEsc (n : Nat) : List Char :=
  '\\' :: 'u' :: [hexDigit (n / 4096 % 16), hexDigit (n / 256 % 16), hexDigit (n / 16 % 16),
    hexDigit (n % 16)]

/-- Escaping of one character as performed by `json.dumps` on a string
(default `ensure_ascii=True`): quote, backslash and the short control escapes,
`\u00xx` for other controls, `\uxxxx` (with surrogate pairs beyond the BMP)
for all non-ASCII, printable ASCII verbatim. -/
def jsEscChar (c : Char) : List Char :=
  if c = '"' then ['\\', '"']
  else if c = '\\' then ['\\', '\\']
  else if c = '\n' then ['\\', 'n']
  else if c = '\r' then ['\\', 'r']
  else if c = '\t' then ['\\', 't']
  else if c = Char.ofNat 8 then ['\\', 'b']
  else if c = Char.ofNat 12 then ['\\', 'f']
  else if c.toNat < 32 || c.toNat ≥ 127 then
    if c.toNat ≥ 65536 then
      uEsc (55296 + (c.toNat - 65536) / 1024) ++ uEsc (56320 + (c.toNat - 65536) % 1024)
    else uEsc c.toNat
  else [c]

/-- `json.dumps(text)` for a string value (line 107). -/
def jsonDumpsStr (s : List Char) : List Char :=
  '"' :: s.foldr (fun c acc => jsEscChar c ++ acc) ['"']

/-- Decimal digits of a natural number (`str(number)`); fuel-based. -/
def digitsAux : Nat → Nat → List Char
  | 0, _ => []
  | fuel + 1, n =>
    if n < 10 then [Char.ofNat (48 + n)]
    else digitsAux fuel (n / 10) ++ [Char.ofNat (48 + n % 10)]

def natDecimal (n : Nat) : List Char := digitsAux (n + 1) n

/-- One `window.addFootnote` call line (line 108). -/
def addFootnoteCall (slug : List Char) (fn : Nat × List Char) : List Char :=
  "  window.addFootnote(\"".toList ++ slug ++ "\", ".toList ++ natDecimal fn.1 ++ ", ".toList ++
    jsonDumpsStr fn.2 ++ ");".toList

/-- `"\n".join`-style concatenation with a separator. -/
def joinSep (sep : List Char) : List (List Char) → List Char
  | [] => []
  | [x] => x
  | x :: y :: xs => x ++ sep ++ joinSep sep (y :: xs)

/-- The inline script block (lines 102–110): empty when the post has no
footnotes, otherwise one registration call per footnote, in list order,
wrapped in one DOMContentLoaded listener. -/
def scriptBlock (slug : List Char) (fns : List (Nat × List Char)) : List Char :=
  if fns.isEmpty then []
  else
    "<script>document.addEventListener('DOMContentLoaded', function() \x7b\n".toList ++
      joinSep ("\n".toList) (fns.map (addFootnoteCall slug)) ++
      "\n\x7d);</script>".toList

/-- One assembled `<article>` block (lines 96–113) for a post with the given
filename and raw contents: footnotes are extracted, marker lines removed, the
body compiled, and the script block appended. -/
def articleHtml (name raw : List Char) : List Char :=
  let fns := extractFootnotes raw
  let cleaned := removeFootnoteLines raw
  let slug := create_slug name
  "<article id=\"".toList ++ slug ++ "\">\n".toList ++ compile_markdown cleaned ++
    "\n".toList ++ scriptBlock slug fns ++ "\n</article>".toList

/-- The selection filter of line 16: `p.suffix == ".md"` (pathlib gives a file
named exactly `.md` an empty suffix) and the name does not start with `_`. -/
def selectName (name : List Char) : Bool :=
  (".md".toList).isSuffixOf name && !(name = ".md".toList) &&
    !(match name with | '_' :: _ => true | _ => false)

/-- One table-of-contents entry (line 92). -/
def blogContentsEntry (name : List Char) : List Char :=
  "<a href='#".toList ++ create_slug name ++ "'>- ".toList ++ name ++ "</a>".toList

/-- Matcher for Python `str.replace(pat, repl)` used on the template tokens. -/
def replaceTokenM (pat repl : List Char) : List Char → Option (List Char × Nat) :=
  fun s => if pat.isPrefixOf s && !pat.isEmpty then some (repl, pat.length - 1) else none

def replaceAll (pat repl s : List Char) : List Char := scanSub (replaceTokenM pat repl) s

/-- The whole program run (after reading the inputs), lines 12–119: `none` for
the directory listing or the template models the missing resource.  A fatal
error carries the reported message and the exit code; `Except.ok` carries the
single output file's contents — on the error paths no output exists. -/
def runGenerator (blogsPath tmplPath : List Char)
    (dirListing : Option (List (List Char × List Char)))
    (template : Option (List Char)) : Except (List Char × Nat) (List Char) :=
  match dirListing with
  | none => Except.error ("blogs folder not found: ".toList ++ blogsPath, 1)
  | some files =>
    let sel := (files.filter (fun f => selectName f.1)).reverse
    match template with
    | none => Except.error ("Template not found: ".toList ++ tmplPath, 1)
    | some tmpl =>
      let contents := joinSep ("<br>".toList) (sel.map (fun f => blogContentsEntry f.1))
      let articles := joinSep ("\n<hr>\n".toList) (sel.map (fun f => articleHtml f.1 f.2))
      let out1 := replaceAll ("###BLOGS###".toList) articles tmpl
      Except.ok (replaceAll ("###BLOG-CONTENTS###".toList) contents out1)

/-! ## General list lemmas used throughout -/

theorem takeWhile_append_stop (p : Char → Bool) :
    ∀ (t : List Char) (x : Char) (r : List Char), (∀ c ∈ t, p c = true) → p x = false →
      ((t ++ x :: r).takeWhile p = t ∧ (t ++ x :: r).dropWhile p = x :: r) := by
  intro t
  induction t with
  | nil =>
    intro x r _ hx
    constructor
    · simp [List.takeWhile_cons, hx]
    · simp [List.dropWhile_cons, hx]
  | cons a t ih =>
    intro x r ht hx
    have ha : p a = true := ht a (by simp)
    have ih' := ih x r (fun c hc => ht c (by simp [hc])) hx
    constructor
    · simp [List.takeWhile_cons, ha, ih'.1]
    · simp [List.dropWhile_cons, ha, ih'.2]

theorem drop_len_append {α : Type} : ∀ (a b : List α) (n : Nat),
    (a ++ b).drop (a.length + n) = b.drop n := by
  intro a
  induction a with
  | nil => intro b n; simp
  | cons x a ih => intro b n; simp [Nat.succ_add, ih b n]

theorem dropWhile_head?_false (p : Char → Bool) :
    ∀ (s : List Char) (c : Char), (s.dropWhile p).head? = some c → p c = false := by
  intro s
  induction s with
  | nil => intro c h; simp [List.dropWhile] at h
  | cons a cs ih =>
    intro c h
    by_cases ha : p a = true
    · rw [List.dropWhile_cons_of_pos ha] at h
      exact ih c h
    · rw [List.dropWhile_cons_of_neg ha] at h
      simp at h
      subst h
      exact Bool.eq_false_iff.mpr ha

theorem getLast?_cons_ne_nil {α : Type} (a : α) (l : List α) (h : l ≠ []) :
    (a :: l).getLast? = l.getLast? := by
  cases l with
  | nil => exact absurd rfl h
  | cons b m => simp [List.getLast?_cons_cons]

theorem getLast?_append_ne_nil {α : Type} :
    ∀ (a b : List α), b ≠ [] → (a ++ b).getLast? = b.getLast? := by
  intro a
  induction a with
  | nil => intro b _; simp
  | cons x a ih =>
    intro b hb
    have hne : a ++ b ≠ [] := by
      intro hc
      exact hb (List.append_eq_nil.mp hc).2
    rw [List.cons_append, getLast?_cons_ne_nil x (a ++ b) hne, ih b hb]

theorem getLast?_dropWhile_ne_nil (p : Char → Bool) :
    ∀ (l : List Char), l.dropWhile p ≠ [] → (l.dropWhile p).getLast? = l.getLast? := by
  intro l
  induction l with
  | nil => intro h; simp [List.dropWhile] at h
  | cons a cs ih =>
    intro h
    by_cases ha : p a = true
    · rw [List.dropWhile_cons_of_pos ha] at h ⊢
      have hcs : cs ≠ [] := by
        intro hc; subst hc; simp [List.dropWhile] at h
      rw [ih h, getLast?_cons_ne_nil a cs hcs]
    · rw [List.dropWhile_cons_of_neg ha]

theorem mem_dropWhile_imp (p : Char → Bool) (l : List Char) (c : Char)
    (h : c ∈ l.dropWhile p) : c ∈ l :=
  (List.dropWhile_sublist p).mem h

/-! ## Claim C1: the slug invariant -/

/-- The invariant on slugs without the non-emptiness requirement: only
`[a-z0-9-]` characters, no leading or trailing dash, no leading digit. -/
def slugOkAmended (s : List Char) : Bool :=
  s.all (fun c => isLowerAlnum c || c = '-') &&
  (match s.head? with | none => true | some c => !(c = '-') && !c.isDigit) &&
  (match s.getLast? with | none => true | some c => !(c = '-'))

/-- The invariant exactly as claimed: additionally, the slug is non-empty. -/
def slugOkClaim (s : List Char) : Bool := !s.isEmpty && slugOkAmended s

theorem collapseAux_mem :
    ∀ (s : List Char) (b : Bool) (c : Char), c ∈ collapseAux b s →
      isLowerAlnum c = true ∨ c = '-' := by
  intro s
  induction s with
  | nil => intro b c h; simp [collapseAux] at h
  | cons a cs ih =>
    intro b c h
    by_cases ha : isLowerAlnum a = true
    · simp only [collapseAux, ha, if_true] at h
      rcases List.mem_cons.mp h with h1 | h2
      · exact Or.inl (h1 ▸ ha)
      · exact ih false c h2
    · cases b with
      | true =>
        simp only [collapseAux, ha, if_false, Bool.false_eq_true, if_true] at h
        exact ih true c h
      | false =>
        simp only [collapseAux, ha, if_false, Bool.false_eq_true] at h
        rcases List.mem_cons.mp h with h1 | h2
        · exact Or.inr h1
        · exact ih true c h2

theorem stripDash_mem (s : List Char) (c : Char) (h : c ∈ stripDash s) : c ∈ s := by
  unfold stripDash at h
  rw [List.mem_reverse] at h
  have h2 := mem_dropWhile_imp _ _ _ h
  rw [List.mem_reverse] at h2
  exact mem_dropWhile_imp _ _ _ h2

theorem stripDash_head (s : List Char) (c : Char)
    (h : (stripDash s).head? = some c) : (c = '-') = False := by
  unfold stripDash at h
  rw [List.head?_reverse] at h
  have hne : ((s.dropWhile (fun c => c = '-')).reverse).dropWhile (fun c => c = '-') ≠ [] := by
    intro hc; rw [hc] at h; simp at h
  rw [getLast?_dropWhile_ne_nil _ _ hne, List.getLast?_reverse] at h
  have := dropWhile_head?_false (fun c => c = '-') s c h
  simp at this
  simp [this]

theorem stripDash_last (s : List Char) (c : Char)
    (h : (stripDash s).getLast? = some c) : (c = '-') = False := by
  unfold stripDash at h
  rw [List.getLast?_reverse] at h
  have := dropWhile_head?_false (fun c => c = '-') _ c h
  simp at this
  simp [this]

theorem create_slug_ok (f : List Char) : slugOkAmended (create_slug f) = true := by
  show slugOkAmended
      (match stripDash (collapseRuns ((replaceMd f).map Char.toLower)) with
       | [] => []
       | c :: rest => if c.isDigit then "post-".toList ++ (c :: rest) else c :: rest) = true
  split
  · rfl
  · rename_i c rest heq
    have hmem : ∀ x ∈ c :: rest, (isLowerAlnum x || x = '-') = true := by
      intro x hx
      have hx2 : x ∈ stripDash (collapseRuns ((replaceMd f).map Char.toLower)) := heq ▸ hx
      have hx3 := stripDash_mem _ _ hx2
      rcases collapseAux_mem _ false x hx3 with h1 | h1
      · simp [h1]
      · simp [h1]
    have hhead : (c = '-') = False := stripDash_head _ c (by rw [heq]; rfl)
    have hlastex : ∃ d, (c :: rest).getLast? = some d := by
      cases hgl : (c :: rest).getLast? with
      | none => simp at hgl
      | some d => exact ⟨d, rfl⟩
    obtain ⟨d, hd⟩ := hlastex
    have hlast : (d = '-') = False := stripDash_last _ d (by rw [heq, hd])
    by_cases hdig : c.isDigit = true
    · rw [if_pos hdig]
      unfold slugOkAmended
      simp only [Bool.and_eq_true]
      refine ⟨⟨?_, ?_⟩, ?_⟩
      · rw [List.all_append]
        simp only [Bool.and_eq_true]
        refine ⟨by decide, ?_⟩
        rw [List.all_eq_true]
        exact hmem
      · rfl
      · rw [getLast?_append_ne_nil _ _ (by simp), hd]
        simp [hlast]
    · rw [if_neg hdig]
      unfold slugOkAmended
      simp only [Bool.and_eq_true]
      refine ⟨⟨?_, ?_⟩, ?_⟩
      · rw [List.all_eq_true]; exact hmem
      · simp only [List.head?_cons]
        simp [hhead, hdig]
      · rw [hd]; simp [hlast]

/-- Claim C1, counterexample: `create_slug` can return the empty string (the
filename `".md"` strips to nothing), so the claimed invariant — a non-empty
string matching the slug pattern — fails. -/
theorem claim_C1_counterexample :
    create_slug (".md".toList) = [] ∧ slugOkClaim (create_slug (".md".toList)) = false := by
  decide

/-- Claim C1 (amended): for every filename string f, `create_slug f` contains
only `[a-z0-9-]`, has no leading or trailing `-`, and does not start with a
digit, but may be empty; and `create_slug "2024-intro.md" = "post-2024-intro"`. -/
theorem claim_C1 :
    (∀ f : List Char, slugOkAmended (create_slug f) = true) ∧
    create_slug ("2024-intro.md".toList) = ("post-2024-intro".toList) :=
  ⟨create_slug_ok, by decide⟩

/-! ## Claim C4: the `.md`-stripping step -/

theorem replaceMd_dotmd (s : List Char) : replaceMd ('.' :: 'm' :: 'd' :: s) = replaceMd s := rfl

theorem replaceMd_id : ∀ s : List Char, containsMd s = false → replaceMd s = s := by
  intro s
  induction s using replaceMd.induct with
  | case1 rest ih =>
    intro h
    simp [containsMd] at h
  | case2 c rest h1 ih =>
    intro h
    have e1 : replaceMd (c :: rest) = c :: replaceMd rest := by
      simp [replaceMd]
    have e2 : containsMd (c :: rest) = containsMd rest := by
      simp [containsMd]
    rw [e1, ih (e2 ▸ h)]
  | case3 =>
    intro _
    rfl

/-- Claim C4, counterexample: in `"a.md.md"` the first `.md` occurrence is not
the trailing suffix, yet the stripping step removes it too — the step yields
`"a"` where a suffix-only removal would yield `"a.md"`; consequently
`create_slug "a.md.md" = "a"` rather than `"a-md"`. -/
theorem claim_C4_counterexample :
    replaceMd ("a.md.md".toList) = ("a".toList) ∧
    ("a".toList ≠ "a.md".toList) ∧
    create_slug ("a.md.md".toList) = ("a".toList) := by
  refine ⟨by decide, by decide, by decide⟩

/-- Claim C4 (amended): the extension-stripping step removes every
left-to-right non-overlapping literal occurrence of `.md` anywhere in the
filename — a leading occurrence is removed no matter what follows — and a
filename with no `.md` occurrence is left unchanged by the step. -/
theorem claim_C4 :
    (∀ s : List Char, replaceMd ('.' :: 'm' :: 'd' :: s) = replaceMd s) ∧
    (∀ s : List Char, containsMd s = false → replaceMd s = s) :=
  ⟨replaceMd_dotmd, replaceMd_id⟩

/-- Witness for C4 at concrete inputs. -/
theorem claim_C4_witness :
    replaceMd ('.' :: 'm' :: 'd' :: ("x".toList)) = replaceMd ("x".toList) ∧
    (containsMd ("notes".toList) = false ∧ replaceMd ("notes".toList) = ("notes".toList)) :=
  ⟨claim_C4.1 ("x".toList), by decide, claim_C4.2 ("notes".toList) (by decide)⟩

/-! ## Claim C3: heading conversion is unanchored -/

theorem matchH4_at (t rest : List Char) (hne : t ≠ []) (hnl : '\n' ∉ t) :
    matchH4 ('#' :: '#' :: '#' :: ' ' :: (t ++ '\n' :: rest)) =
      some ("<h4>".toList ++ t ++ "</h4>\n".toList, 4 + t.length) := by
  have ht : ∀ c ∈ t, (fun c : Char => decide (c ≠ '\n')) c = true := by
    intro c hc
    simp
    exact fun h => hnl (h ▸ hc)
  have hx : (fun c : Char => decide (c ≠ '\n')) '\n' = false := by simp
  have hw := takeWhile_append_stop _ t '\n' rest ht hx
  unfold matchH4
  have htest : h4Test ('#' :: '#' :: '#' :: ' ' :: (t ++ '\n' :: rest)) = true := by
    simp [h4Test]
  rw [htest, if_pos rfl]
  simp only [List.drop_succ_cons, List.drop_zero]
  rw [hw.1, hw.2]
  simp [List.isEmpty_iff, hne]

theorem h4Sub_head (t rest : List Char) (hne : t ≠ []) (hnl : '\n' ∉ t) :
    h4Sub ("### ".toList ++ t ++ '\n' :: rest) =
      "<h4>".toList ++ t ++ "</h4>\n".toList ++ h4Sub rest := by
  show h4Sub ('#' :: '#' :: '#' :: ' ' :: (t ++ '\n' :: rest)) = _
  unfold h4Sub
  rw [scanSub_cons_some matchH4 '#' ('#' :: '#' :: ' ' :: (t ++ '\n' :: rest))
        ("<h4>".toList ++ t ++ "</h4>\n".toList) (4 + t.length) (matchH4_at t rest hne hnl)]
  congr 1
  have harr : '#' :: '#' :: ' ' :: (t ++ '\n' :: rest) =
      (('#' :: '#' :: ' ' :: t) ++ ('\n' :: rest)) := by simp
  have hlen : 4 + t.length = ('#' :: '#' :: ' ' :: t).length + 1 := by
    simp [List.length_cons]
    omega
  rw [harr, hlen, drop_len_append]
  rfl

theorem matchH4_none_cons (c : Char) (x : List Char) (hc : c ≠ '#') :
    matchH4 (c :: x) = none := by
  have htest : h4Test (c :: x) = false := by
    cases x with
    | nil => rfl
    | cons a y =>
      cases y with
      | nil => rfl
      | cons b z =>
        cases z with
        | nil => rfl
        | cons d w => simp [h4Test, hc]
  simp [matchH4, htest]

theorem h4Sub_mid (c : Char) (t rest : List Char) (hc : c ≠ '#') (hne : t ≠ [])
    (hnl : '\n' ∉ t) :
    h4Sub (c :: ("### ".toList ++ t ++ '\n' :: rest)) =
      c :: ("<h4>".toList ++ t ++ "</h4>\n".toList ++ h4Sub rest) := by
  unfold h4Sub
  rw [scanSub_cons_none matchH4 c _ (matchH4_none_cons c _ hc)]
  show c :: h4Sub _ = _
  rw [h4Sub_head t rest hne hnl]
  rfl

theorem matchH3_at (t rest : List Char) (hne : t ≠ []) (hnl : '\n' ∉ t) :
    matchH3 ('#' :: '#' :: ' ' :: (t ++ '\n' :: rest)) =
      some ("<h3>".toList ++ t ++ "</h3>\n".toList, 3 + t.length) := by
  have ht : ∀ c ∈ t, (fun c : Char => decide (c ≠ '\n')) c = true := by
    intro c hc
    simp
    exact fun h => hnl (h ▸ hc)
  have hx : (fun c : Char => decide (c ≠ '\n')) '\n' = false := by simp
  have hw := takeWhile_append_stop _ t '\n' rest ht hx
  unfold matchH3
  have htest : h3Test ('#' :: '#' :: ' ' :: (t ++ '\n' :: rest)) = true := by
    simp [h3Test]
  rw [htest, if_pos rfl]
  simp only [List.drop_succ_cons, List.drop_zero]
  rw [hw.1, hw.2]
  simp [List.isEmpty_iff, hne]

theorem h3Sub_head (t rest : List Char) (hne : t ≠ []) (hnl : '\n' ∉ t) :
    h3Sub ("## ".toList ++ t ++ '\n' :: rest) =
      "<h3>".toList ++ t ++ "</h3>\n".toList ++ h3Sub rest := by
  show h3Sub ('#' :: '#' :: ' ' :: (t ++ '\n' :: rest)) = _
  unfold h3Sub
  rw [scanSub_cons_some matchH3 '#' ('#' :: ' ' :: (t ++ '\n' :: rest))
        ("<h3>".toList ++ t ++ "</h3>\n".toList) (3 + t.length) (matchH3_at t rest hne hnl)]
  congr 1
  have harr : '#' :: ' ' :: (t ++ '\n' :: rest) = (('#' :: ' ' :: t) ++ ('\n' :: rest)) := by simp
  have hlen : 3 + t.length = ('#' :: ' ' :: t).length + 1 := by
    simp [List.length_cons]
    omega
  rw [harr, hlen, drop_len_append]
  rfl

/-- Claim C3, counterexample: the heading pattern is not anchored to line
starts — in `"x ### y\n"` the `### ` occurs mid-line and is still converted. -/
theorem claim_C3_counterexample :
    compile_markdown ("x ### y\n".toList) = ("x <h4>y</h4><br>".toList) := by decide

/-- Claim C3 (amended): the heading pass converts any occurrence of `### `
followed by a non-empty newline-free text and a newline — at the start of the
text and equally after any non-`#` character mid-line (likewise `## ` for
`<h3>`); the conversion keeps the line terminator, and
`compile("### Subtitle\n") = "<h4>Subtitle</h4><br>"`. -/
theorem claim_C3 :
    (∀ t rest : List Char, t ≠ [] → '\n' ∉ t →
        h4Sub ("### ".toList ++ t ++ '\n' :: rest) =
          "<h4>".toList ++ t ++ "</h4>\n".toList ++ h4Sub rest) ∧
    (∀ (c : Char) (t rest : List Char), c ≠ '#' → t ≠ [] → '\n' ∉ t →
        h4Sub (c :: ("### ".toList ++ t ++ '\n' :: rest)) =
          c :: ("<h4>".toList ++ t ++ "</h4>\n".toList ++ h4Sub rest)) ∧
    (∀ t rest : List Char, t ≠ [] → '\n' ∉ t →
        h3Sub ("## ".toList ++ t ++ '\n' :: rest) =
          "<h3>".toList ++ t ++ "</h3>\n".toList ++ h3Sub rest) ∧
    compile_markdown ("### Subtitle\n".toList) = ("<h4>Subtitle</h4><br>".toList) :=
  ⟨h4Sub_head, h4Sub_mid, h3Sub_head, by decide⟩

/-- Witness for C3 at concrete inputs. -/
theorem claim_C3_witness :
    h4Sub ('x' :: ("### ".toList ++ "y".toList ++ '\n' :: [])) =
      'x' :: ("<h4>".toList ++ "y".toList ++ "</h4>\n".toList ++ h4Sub []) :=
  claim_C3.2.1 'x' ("y".toList) [] (by decide) (by decide) (by decide)

/-! ## Claim C6: the autolink pass -/

theorem matchAutolink_at (u : List Char) (w : Char) (rest : List Char) (hne : u ≠ [])
    (hu : ∀ c ∈ u, isWsB c = false ∧ c ≠ '<') (hw : isWsB w = true) :
    matchAutolink ('h' :: 't' :: 't' :: 'p' :: 's' :: ':' :: '/' :: '/' :: (u ++ w :: rest)) =
      some ("<a href='https://".toList ++ u ++ "'>https://".toList ++ u ++ "</a>".toList ++ [w],
        8 + u.length) := by
  have ht : ∀ c ∈ u, (fun c : Char => !isWsB c && decide (c ≠ '<')) c = true := by
    intro c hc
    simp [(hu c hc).1, (hu c hc).2]
  have hx : (fun c : Char => !isWsB c && decide (c ≠ '<')) w = false := by
    simp [hw]
  have hwh := takeWhile_append_stop _ u w rest ht hx
  unfold matchAutolink
  rw [if_pos (by simp [httpsTest])]
  simp only [List.drop_succ_cons, List.drop_zero]
  rw [hwh.1, hwh.2]
  simp [List.isEmpty_iff, hne, hw]

theorem autolinkSub_head (u : List Char) (w : Char) (rest : List Char) (hne : u ≠ [])
    (hu : ∀ c ∈ u, isWsB c = false ∧ c ≠ '<') (hw : isWsB w = true) :
    autolinkSub ("https://".toList ++ u ++ w :: rest) =
      "<a href='https://".toList ++ u ++ "'>https://".toList ++ u ++ "</a>".toList ++
        w :: autolinkSub rest := by
  show autolinkSub ('h' :: 't' :: 't' :: 'p' :: 's' :: ':' :: '/' :: '/' :: (u ++ w :: rest)) = _
  unfold autolinkSub
  rw [scanSub_cons_some matchAutolink 'h' ('t' :: 't' :: 'p' :: 's' :: ':' :: '/' :: '/' :: (u ++ w :: rest))
        ("<a href='https://".toList ++ u ++ "'>https://".toList ++ u ++ "</a>".toList ++ [w])
        (8 + u.length) (matchAutolink_at u w rest hne hu hw)]
  have harr : 't' :: 't' :: 'p' :: 's' :: ':' :: '/' :: '/' :: (u ++ w :: rest) =
      (('t' :: 't' :: 'p' :: 's' :: ':' :: '/' :: '/' :: u) ++ (w :: rest)) := by simp
  have hlen : 8 + u.length = ('t' :: 't' :: 'p' :: 's' :: ':' :: '/' :: '/' :: u).length + 1 := by
    simp [List.length_cons]
    omega
  rw [harr, hlen, drop_len_append]
  simp

theorem matchAutolink_none_noWs (s : List Char) (h : ∀ c ∈ s, isWsB c = false) :
    matchAutolink s = none := by
  unfold matchAutolink
  by_cases htest : httpsTest s = true
  · rw [if_pos htest]
    dsimp only
    split
    · rfl
    · split
      · rename_i w ws hdw
        have hwmem : w ∈ s := by
          have h1 : w ∈ (s.drop 8).dropWhile (fun c => !isWsB c && decide (c ≠ '<')) := by
            rw [hdw]; simp
          have h2 := mem_dropWhile_imp _ _ _ h1
          exact List.mem_of_mem_drop h2
        rw [if_neg (by simp [h w hwmem])]
      · rfl
  · simp [htest]

theorem autolinkSub_id (s : List Char) (h : ∀ c ∈ s, isWsB c = false) :
    autolinkSub s = s := by
  unfold autolinkSub
  refine scanSub_eq_self matchAutolink s ?_
  intro s₁ s₂ hs
  refine matchAutolink_none_noWs s₂ ?_
  intro c hc
  exact h c (hs ▸ List.mem_append.mpr (Or.inr hc))

/-- Claim C6, counterexample: the URL character class also excludes `<`, not
only whitespace — in `"https://a<b \n"` the continuation `a<b` is
non-whitespace and is followed by a space, yet no anchor is produced. -/
theorem claim_C6_counterexample :
    compile_markdown ("https://a<b \n".toList) = ("https://a<b <br>".toList) := by decide

/-- Claim C6 (amended): a substring `https://` continued by one or more
characters that are neither whitespace nor `<` and followed by a whitespace
character becomes an anchor whose href and text are the matched URL, the
whitespace kept after the tag; a text without any whitespace (in particular a
URL ending the text) is left entirely unlinked; and
`compile("See https://example.org/a\\_b\n")` yields the documented anchor. -/
theorem claim_C6 :
    (∀ (u : List Char) (w : Char) (rest : List Char), u ≠ [] →
        (∀ c ∈ u, isWsB c = false ∧ c ≠ '<') → isWsB w = true →
        autolinkSub ("https://".toList ++ u ++ w :: rest) =
          "<a href='https://".toList ++ u ++ "'>https://".toList ++ u ++ "</a>".toList ++
            w :: autolinkSub rest) ∧
    (∀ s : List Char, (∀ c ∈ s, isWsB c = false) → autolinkSub s = s) ∧
    compile_markdown ("See https://example.org/a\\_b\n".toList) =
      ("See <a href='https://example.org/a_b'>https://example.org/a_b</a><br>".toList) :=
  ⟨autolinkSub_head, autolinkSub_id, by decide⟩

/-- Witness for C6 at concrete inputs. -/
theorem claim_C6_witness :
    autolinkSub ("https://".toList ++ "x.org".toList ++ ' ' :: []) =
      "<a href='https://".toList ++ "x.org".toList ++ "'>https://".toList ++ "x.org".toList ++
        "</a>".toList ++ ' ' :: autolinkSub [] ∧
    autolinkSub ("https://end".toList) = ("https://end".toList) :=
  ⟨claim_C6.1 ("x.org".toList) ' ' [] (by decide) (by decide) (by decide),
   claim_C6.2.1 ("https://end".toList) (by decide)⟩

/-! ## Claim C2: fenced code blocks -/

/-- The opening/closing fence `"```"`. -/
def ticks3 : List Char := [backtickChar, backtickChar, backtickChar]

theorem take_len_append {α : Type} : ∀ (a b : List α), (a ++ b).take a.length = a := by
  intro a
  induction a with
  | nil => intro b; simp
  | cons x a ih => intro b; simp [ih b]

theorem findTicks_append (t r : List Char) (ht : backtickChar ∉ t) :
    findTicks (t ++ backtickChar :: backtickChar :: backtickChar :: r) = some t.length := by
  induction t with
  | nil =>
    show findTicks (backtickChar :: backtickChar :: backtickChar :: r) = some 0
    unfold findTicks
    rw [if_pos (by simp [ticks2])]
  | cons c t ih =>
    have hc : (c = backtickChar) = False := by
      simp
      intro hcc
      exact ht (by simp [hcc])
    show findTicks (c :: (t ++ backtickChar :: backtickChar :: backtickChar :: r)) = _
    unfold findTicks
    rw [if_neg (by simp [hc])]
    rw [ih (fun hm => ht (by simp [hm]))]
    simp [List.length_cons]

theorem matchGen_at (t r : List Char) (ht : backtickChar ∉ t) :
    matchGen (backtickChar :: backtickChar :: backtickChar :: (t ++ backtickChar :: backtickChar :: backtickChar :: r)) =
      some ("<pre><code>".toList ++ t ++ "</code></pre>".toList, 5 + t.length) := by
  unfold matchGen
  rw [if_pos (by simp [ticks3Test])]
  simp only [List.drop_succ_cons, List.drop_zero]
  rw [findTicks_append t r ht]
  show some (_ ++ (t ++ _ :: _ :: _ :: r).take t.length ++ _, _) = _
  rw [take_len_append t (backtickChar :: backtickChar :: backtickChar :: r)]

theorem genSub_head (t r : List Char) (ht : backtickChar ∉ t) :
    genSub (ticks3 ++ t ++ ticks3 ++ r) =
      "<pre><code>".toList ++ t ++ "</code></pre>".toList ++ genSub r := by
  have hassoc : ticks3 ++ t ++ ticks3 ++ r =
      backtickChar :: backtickChar :: backtickChar :: (t ++ backtickChar :: backtickChar :: backtickChar :: r) := by
    simp [ticks3]
  rw [hassoc]
  unfold genSub
  rw [scanSub_cons_some matchGen backtickChar
        (backtickChar :: backtickChar :: (t ++ backtickChar :: backtickChar :: backtickChar :: r))
        ("<pre><code>".toList ++ t ++ "</code></pre>".toList) (5 + t.length)
        (matchGen_at t r ht)]
  congr 1
  have harr : backtickChar :: backtickChar :: (t ++ backtickChar :: backtickChar :: backtickChar :: r) =
      ((backtickChar :: backtickChar :: t) ++ (backtickChar :: backtickChar :: backtickChar :: r)) := by
    simp
  have hlen : 5 + t.length = (backtickChar :: backtickChar :: t).length + 3 := by
    simp [List.length_cons]
    omega
  rw [harr, hlen, drop_len_append]
  rfl

theorem matchHs_at (t r : List Char) (ht : backtickChar ∉ t) :
    matchHs (backtickChar :: backtickChar :: backtickChar :: 'h' :: 's' :: '\n' :: (t ++ backtickChar :: backtickChar :: backtickChar :: r)) =
      some ("<pre><code class='language-haskell'>".toList ++ t ++ "</code></pre>".toList, 8 + t.length) := by
  unfold matchHs
  rw [if_pos (by simp [hsTest])]
  simp only [List.drop_succ_cons, List.drop_zero]
  rw [findTicks_append t r ht]
  show some (_ ++ (t ++ _ :: _ :: _ :: r).take t.length ++ _, _) = _
  rw [take_len_append t (backtickChar :: backtickChar :: backtickChar :: r)]

theorem hsSub_head (t r : List Char) (ht : backtickChar ∉ t) :
    hsSub (ticks3 ++ "hs\n".toList ++ t ++ ticks3 ++ r) =
      "<pre><code class='language-haskell'>".toList ++ t ++ "</code></pre>".toList ++ hsSub r := by
  have hassoc : ticks3 ++ "hs\n".toList ++ t ++ ticks3 ++ r =
      backtickChar :: backtickChar :: backtickChar :: 'h' :: 's' :: '\n' :: (t ++ backtickChar :: backtickChar :: backtickChar :: r) := by
    simp [ticks3]
  rw [hassoc]
  unfold hsSub
  rw [scanSub_cons_some matchHs backtickChar
        (backtickChar :: backtickChar :: 'h' :: 's' :: '\n' :: (t ++ backtickChar :: backtickChar :: backtickChar :: r))
        ("<pre><code class='language-haskell'>".toList ++ t ++ "</code></pre>".toList) (8 + t.length)
        (matchHs_at t r ht)]
  congr 1
  have harr : backtickChar :: backtickChar :: 'h' :: 's' :: '\n' :: (t ++ backtickChar :: backtickChar :: backtickChar :: r) =
      ((backtickChar :: backtickChar :: 'h' :: 's' :: '\n' :: t) ++ (backtickChar :: backtickChar :: backtickChar :: r)) := by
    simp
  have hlen : 8 + t.length = (backtickChar :: backtickChar :: 'h' :: 's' :: '\n' :: t).length + 3 := by
    simp [List.length_cons]
    omega
  rw [harr, hlen, drop_len_append]
  rfl

/-- Claim C2, counterexample: fence interiors are not emitted verbatim — the
line feed inside the fence in `"```a\nb```"` is turned into `<br>` by the
later newline pass, so the characters between the tags differ from the span's
interior. -/
theorem claim_C2_counterexample :
    compile_markdown ("```a\nb```".toList) = ("<pre><code>a<br>b</code></pre>".toList) := by
  decide

/-- Claim C2 (amended): the fence-substitution passes themselves emit the
interior unchanged between the tags (shown for backtick-free interiors, which
make the closing fence unambiguous), but the interior has already been
transformed by the earlier passes and is still subject to the later passes of
compile (bold, italic, newline to `<br>`); in particular
`compile("```hello```") = "<pre><code>hello</code></pre>"`. -/
theorem claim_C2 :
    (∀ t r : List Char, backtickChar ∉ t →
        genSub (ticks3 ++ t ++ ticks3 ++ r) =
          "<pre><code>".toList ++ t ++ "</code></pre>".toList ++ genSub r) ∧
    (∀ t r : List Char, backtickChar ∉ t →
        hsSub (ticks3 ++ "hs\n".toList ++ t ++ ticks3 ++ r) =
          "<pre><code class='language-haskell'>".toList ++ t ++ "</code></pre>".toList ++ hsSub r) ∧
    compile_markdown ("```hello```".toList) = ("<pre><code>hello</code></pre>".toList) :=
  ⟨genSub_head, hsSub_head, by decide⟩

/-- Witness for C2 at concrete inputs. -/
theorem claim_C2_witness :
    genSub (ticks3 ++ "ab".toList ++ ticks3 ++ "xy".toList) =
      "<pre><code>".toList ++ "ab".toList ++ "</code></pre>".toList ++ genSub ("xy".toList) ∧
    hsSub (ticks3 ++ "hs\n".toList ++ "ab".toList ++ ticks3 ++ "xy".toList) =
      "<pre><code class='language-haskell'>".toList ++ "ab".toList ++ "</code></pre>".toList ++
        hsSub ("xy".toList) :=
  ⟨claim_C2.1 ("ab".toList) ("xy".toList) (by decide),
   claim_C2.2.1 ("ab".toList) ("xy".toList) (by decide)⟩

/-! ## Claim C10: emphasis never crosses a line feed -/

theorem star2_cons_false (d : Char) (x : List Char) (hd : (d = '*') = False) :
    star2 (d :: x) = false := by
  cases x with
  | nil => rfl
  | cons e y => simp [star2, hd]

theorem findClose2_none : ∀ t : List Char, '\n' ∈ t → '*' ∉ t →
    findClose2 (t ++ ['*', '*']) = none := by
  intro t
  induction t with
  | nil => intro h _; simp at h
  | cons c t' ih =>
    intro hnl hst
    show findClose2 (c :: (t' ++ ['*', '*'])) = none
    unfold findClose2
    by_cases hc : c = '\n'
    · rw [if_pos hc]
    · rw [if_neg hc]
      have hnl' : '\n' ∈ t' := by
        rcases List.mem_cons.mp hnl with h1 | h1
        · exact absurd h1.symm hc
        · exact h1
      have ht'ne : t' ≠ [] := by
        intro hq; rw [hq] at hnl'; simp at hnl'
      have hstar : star2 (t' ++ ['*', '*']) = false := by
        cases t' with
        | nil => exact absurd rfl ht'ne
        | cons d t'' =>
          have hd : (d = '*') = False := by
            simp; intro hq; exact hst (by simp [hq])
          show star2 (d :: (t'' ++ ['*', '*'])) = false
          exact star2_cons_false d _ hd
      rw [if_neg (by simp [hstar])]
      rw [ih hnl' (fun hm => hst (by simp [hm]))]
      rfl

theorem matchBold_none_suffix_tail :
    ∀ t : List Char, '*' ∉ t → ∀ s₂ : List Char, s₂ <:+ (t ++ ['*', '*']) →
      matchBold s₂ = none := by
  intro t
  induction t with
  | nil =>
    intro _ s₂ hsuf
    obtain ⟨a, ha⟩ := hsuf
    cases a with
    | nil => simp at ha; subst ha; decide
    | cons x a' =>
      cases a' with
      | nil =>
        simp at ha
        rw [ha.2]; decide
      | cons y a'' =>
        cases a'' with
        | nil =>
          simp at ha
          rw [ha.2.2]; decide
        | cons z a''' => simp at ha
  | cons c t' ih =>
    intro hst s₂ hsuf
    rcases List.suffix_cons_iff.mp hsuf with h1 | h1
    · subst h1
      have hc : (c = '*') = False := by
        simp; intro hq; exact hst (by simp [hq])
      unfold matchBold
      rw [if_neg (by simp [star2_cons_false c _ hc])]
    · exact ih (fun hm => hst (by simp [hm])) s₂ h1

theorem matchBold_none_suffix (t : List Char) (hnl : '\n' ∈ t) (hst : '*' ∉ t) :
    ∀ s₂ : List Char, s₂ <:+ ('*' :: '*' :: (t ++ ['*', '*'])) → matchBold s₂ = none := by
  intro s₂ hsuf
  rcases List.suffix_cons_iff.mp hsuf with h1 | h1
  · subst h1
    unfold matchBold
    rw [if_pos (by simp [star2])]
    simp only [List.drop_succ_cons, List.drop_zero]
    rw [findClose2_none t hnl hst]
  · rcases List.suffix_cons_iff.mp h1 with h2 | h2
    · subst h2
      have htne : t ≠ [] := by
        intro hq; rw [hq] at hnl; simp at hnl
      unfold matchBold
      cases t with
      | nil => exact absurd rfl htne
      | cons d t'' =>
        have hd : (d = '*') = False := by
          simp; intro hq; exact hst (by simp [hq])
        rw [if_neg (by simp [star2, hd])]
    · exact matchBold_none_suffix_tail t hst s₂ h2

theorem boldSub_pair (t : List Char) (hnl : '\n' ∈ t) (hst : '*' ∉ t) :
    boldSub ('*' :: '*' :: (t ++ ['*', '*'])) = '*' :: '*' :: (t ++ ['*', '*']) := by
  unfold boldSub
  refine scanSub_eq_self matchBold _ ?_
  intro s₁ s₂ hs
  exact matchBold_none_suffix t hnl hst s₂ ⟨s₁, hs⟩

theorem findClose1_none : ∀ t : List Char, '\n' ∈ t → '*' ∉ t →
    findClose1 (t ++ ['*']) = none := by
  intro t
  induction t with
  | nil => intro h _; simp at h
  | cons c t' ih =>
    intro hnl hst
    show findClose1 (c :: (t' ++ ['*'])) = none
    unfold findClose1
    by_cases hc : c = '\n'
    · rw [if_pos hc]
    · rw [if_neg hc]
      have hnl' : '\n' ∈ t' := by
        rcases List.mem_cons.mp hnl with h1 | h1
        · exact absurd h1.symm hc
        · exact h1
      have ht'ne : t' ≠ [] := by
        intro hq; rw [hq] at hnl'; simp at hnl'
      have hstar : star1 (t' ++ ['*']) = false := by
        cases t' with
        | nil => exact absurd rfl ht'ne
        | cons d t'' =>
          have hd : (d = '*') = False := by
            simp; intro hq; exact hst (by simp [hq])
          simp [star1, hd]
      rw [if_neg (by simp [hstar])]
      rw [ih hnl' (fun hm => hst (by simp [hm]))]
      rfl

theorem matchItalic_none_suffix_tail :
    ∀ t : List Char, '*' ∉ t → ∀ s₂ : List Char, s₂ <:+ (t ++ ['*']) →
      matchItalic s₂ = none := by
  intro t
  induction t with
  | nil =>
    intro _ s₂ hsuf
    obtain ⟨a, ha⟩ := hsuf
    cases a with
    | nil => simp at ha; subst ha; decide
    | cons x a' =>
      cases a' with
      | nil =>
        simp at ha
        rw [ha.2]; decide
      | cons y a'' => simp at ha
  | cons c t' ih =>
    intro hst s₂ hsuf
    rcases List.suffix_cons_iff.mp hsuf with h1 | h1
    · subst h1
      have hc : (c = '*') = False := by
        simp; intro hq; exact hst (by simp [hq])
      unfold matchItalic
      rw [if_neg (by simp [star1, hc])]
    · exact ih (fun hm => hst (by simp [hm])) s₂ h1

theorem matchItalic_none_suffix (t : List Char) (hnl : '\n' ∈ t) (hst : '*' ∉ t) :
    ∀ s₂ : List Char, s₂ <:+ ('*' :: (t ++ ['*'])) → matchItalic s₂ = none := by
  intro s₂ hsuf
  rcases List.suffix_cons_iff.mp hsuf with h1 | h1
  · subst h1
    unfold matchItalic
    rw [if_pos (by simp [star1])]
    simp only [List.drop_succ_cons, List.drop_zero]
    rw [findClose1_none t hnl hst]
  · exact matchItalic_none_suffix_tail t hst s₂ h1

theorem italicSub_pair (t : List Char) (hnl : '\n' ∈ t) (hst : '*' ∉ t) :
    italicSub ('*' :: (t ++ ['*'])) = '*' :: (t ++ ['*']) := by
  unfold italicSub
  refine scanSub_eq_self matchItalic _ ?_
  intro s₁ s₂ hs
  exact matchItalic_none_suffix t hnl hst s₂ ⟨s₁, hs⟩

/-- Claim C10: emphasis never crosses a line feed — a `**`-pair (or `*`-pair)
whose enclosed text contains `\n` (and no stray `*`, so the pair is
unambiguous) is not converted, the asterisks passing through literally; in
compile the newline inside then simply becomes `<br>`. -/
theorem claim_C10 :
    (∀ t : List Char, '\n' ∈ t → '*' ∉ t →
        boldSub ('*' :: '*' :: (t ++ ['*', '*'])) = '*' :: '*' :: (t ++ ['*', '*']) ∧
        italicSub ('*' :: (t ++ ['*'])) = '*' :: (t ++ ['*'])) ∧
    compile_markdown ("**a\nb**".toList) = ("**a<br>b**".toList) ∧
    compile_markdown ("*a\nb*".toList) = ("*a<br>b*".toList) :=
  ⟨fun t hnl hst => ⟨boldSub_pair t hnl hst, italicSub_pair t hnl hst⟩, by decide, by decide⟩

/-- Witness for C10 at a concrete input. -/
theorem claim_C10_witness :
    boldSub ('*' :: '*' :: ("a\nb".toList ++ ['*', '*'])) =
      '*' :: '*' :: ("a\nb".toList ++ ['*', '*']) ∧
    italicSub ('*' :: ("a\nb".toList ++ ['*'])) = '*' :: ("a\nb".toList ++ ['*']) :=
  claim_C10.1 ("a\nb".toList) (by decide) (by decide)

/-! ## Claim C5: the footnote-removal round trip -/

theorem linesKeepEol_ne_nil (c : Char) (cs : List Char) : linesKeepEol (c :: cs) ≠ [] := by
  unfold linesKeepEol
  by_cases hc : c = '\n'
  · rw [if_pos hc]; simp
  · rw [if_neg hc]
    cases linesKeepEol cs with
    | nil => simp
    | cons l ls => simp

theorem joinAll_linesKeepEol : ∀ s : List Char, joinAll (linesKeepEol s) = s := by
  intro s
  induction s with
  | nil => rfl
  | cons c cs ih =>
    unfold linesKeepEol
    by_cases hc : c = '\n'
    · rw [if_pos hc]
      show '\n' :: joinAll (linesKeepEol cs) = c :: cs
      rw [ih, hc]
    · rw [if_neg hc]
      cases hL : linesKeepEol cs with
      | nil =>
        have hcs : cs = [] := by
          cases cs with
          | nil => rfl
          | cons d ds => exact absurd hL (linesKeepEol_ne_nil d ds)
        subst hcs
        rfl
      | cons l ls =>
        show (c :: l) ++ joinAll ls = c :: cs
        have : l ++ joinAll ls = cs := by
          have h2 : joinAll (l :: ls) = cs := hL ▸ ih
          exact h2
        simp [this]

/-- Lines paired with their position, starting at index `k`. -/
def enumFrom : Nat → List (List Char) → List (Nat × List Char)
  | _, [] => []
  | k, l :: ls => (k, l) :: enumFrom (k + 1) ls

/-- Merge two index-tagged line lists by index order (fuel-based). -/
def mergeIdxF : Nat → List (Nat × List Char) → List (Nat × List Char) → List (List Char)
  | _, [], ys => ys.map Prod.snd
  | _, xs, [] => xs.map Prod.snd
  | 0, xs, ys => (xs ++ ys).map Prod.snd
  | fuel + 1, (i, x) :: xs, (j, y) :: ys =>
    if i ≤ j then x :: mergeIdxF fuel xs ((j, y) :: ys)
    else y :: mergeIdxF fuel ((i, x) :: xs) ys

/-- Reinsertion: interleave the two tagged lists by original position. -/
def mergeIdx (xs ys : List (Nat × List Char)) : List (List Char) :=
  mergeIdxF (xs.length + ys.length) xs ys

theorem mergeIdxF_congr :
    ∀ (f₁ f₂ : Nat) (xs ys : List (Nat × List Char)),
      xs.length + ys.length ≤ f₁ → xs.length + ys.length ≤ f₂ →
      mergeIdxF f₁ xs ys = mergeIdxF f₂ xs ys := by
  intro f₁
  induction f₁ with
  | zero =>
    intro f₂ xs ys h₁ _
    cases xs with
    | nil => simp [mergeIdxF]
    | cons x xs' =>
      cases ys with
      | nil => simp [mergeIdxF]
      | cons y ys' => simp at h₁
  | succ f ih =>
    intro f₂ xs ys h₁ h₂
    cases xs with
    | nil => simp [mergeIdxF]
    | cons x xs' =>
      cases ys with
      | nil => simp [mergeIdxF]
      | cons y ys' =>
        cases f₂ with
        | zero => simp at h₂
        | succ f₂' =>
          obtain ⟨i, xv⟩ := x
          obtain ⟨j, yv⟩ := y
          show (if i ≤ j then xv :: mergeIdxF f xs' ((j, yv) :: ys')
                else yv :: mergeIdxF f ((i, xv) :: xs') ys') =
               (if i ≤ j then xv :: mergeIdxF f₂' xs' ((j, yv) :: ys')
                else yv :: mergeIdxF f₂' ((i, xv) :: xs') ys')
          simp only [List.length_cons] at h₁ h₂
          by_cases hij : i ≤ j
          · rw [if_pos hij, if_pos hij, ih f₂' xs' ((j, yv) :: ys') (by simp; omega) (by simp; omega)]
          · rw [if_neg hij, if_neg hij, ih f₂' ((i, xv) :: xs') ys' (by simp; omega) (by simp; omega)]

theorem mergeIdx_nil_left (ys : List (Nat × List Char)) : mergeIdx [] ys = ys.map Prod.snd := by
  simp [mergeIdx, mergeIdxF]

theorem mergeIdx_nil_right (xs : List (Nat × List Char)) : mergeIdx xs [] = xs.map Prod.snd := by
  cases xs with
  | nil => simp [mergeIdx, mergeIdxF]
  | cons x xs' => simp [mergeIdx, mergeIdxF]

theorem mergeIdx_cons_cons (i : Nat) (x : List Char) (xs : List (Nat × List Char))
    (j : Nat) (y : List Char) (ys : List (Nat × List Char)) :
    mergeIdx ((i, x) :: xs) ((j, y) :: ys) =
      if i ≤ j then x :: mergeIdx xs ((j, y) :: ys) else y :: mergeIdx ((i, x) :: xs) ys := by
  show mergeIdxF ((xs.length + 1) + (ys.length + 1)) ((i, x) :: xs) ((j, y) :: ys) = _
  have hstep : (xs.length + 1) + (ys.length + 1) = (xs.length + 1 + ys.length) + 1 := by omega
  rw [hstep]
  show (if i ≤ j then x :: mergeIdxF (xs.length + 1 + ys.length) xs ((j, y) :: ys)
        else y :: mergeIdxF (xs.length + 1 + ys.length) ((i, x) :: xs) ys) = _
  by_cases hij : i ≤ j
  · rw [if_pos hij, if_pos hij]
    rw [mergeIdxF_congr _ (xs.length + (ys.length + 1)) xs ((j, y) :: ys)
          (by simp only [List.length_cons]; omega) (by simp only [List.length_cons]; omega)]
    rfl
  · rw [if_neg hij, if_neg hij]
    rw [mergeIdxF_congr _ ((xs.length + 1) + ys.length) ((i, x) :: xs) ys
          (by simp only [List.length_cons]; omega) (by simp only [List.length_cons]; omega)]
    rfl

theorem enumFrom_bound : ∀ (ls : List (List Char)) (k : Nat) (p : Nat × List Char),
    p ∈ enumFrom k ls → k ≤ p.1 := by
  intro ls
  induction ls with
  | nil => intro k p hp; simp [enumFrom] at hp
  | cons l ls ih =>
    intro k p hp
    rcases List.mem_cons.mp hp with h | h
    · subst h; simp
    · exact le_trans (Nat.le_succ k) (ih (k + 1) p h)

theorem enumFrom_filter_map (q : List Char → Bool) :
    ∀ (ls : List (List Char)) (k : Nat),
      (((enumFrom k ls).filter (fun p => q p.2)).map Prod.snd) = ls.filter q := by
  intro ls
  induction ls with
  | nil => intro k; rfl
  | cons l ls ih =>
    intro k
    show ((((k, l) :: enumFrom (k + 1) ls).filter (fun p => q p.2)).map Prod.snd) = _
    by_cases hq : q l = true
    · rw [List.filter_cons_of_pos (by simpa using hq), List.filter_cons_of_pos hq]
      simp only [List.map_cons]
      rw [ih (k + 1)]
    · rw [List.filter_cons_of_neg (by simpa using hq), List.filter_cons_of_neg hq]
      exact ih (k + 1)

theorem merge_partition (P : List Char → Bool) :
    ∀ (ls : List (List Char)) (k : Nat),
      mergeIdx ((enumFrom k ls).filter (fun p => !(P p.2)))
               ((enumFrom k ls).filter (fun p => P p.2)) = ls := by
  intro ls
  induction ls with
  | nil => intro k; rfl
  | cons l ls ih =>
    intro k
    show mergeIdx (((k, l) :: enumFrom (k + 1) ls).filter (fun p => !(P p.2)))
                  (((k, l) :: enumFrom (k + 1) ls).filter (fun p => P p.2)) = l :: ls
    by_cases hP : P l = true
    · rw [List.filter_cons_of_neg (by simp [hP]), List.filter_cons_of_pos (by simpa using hP)]
      cases hK : (enumFrom (k + 1) ls).filter (fun p => !(P p.2)) with
      | nil =>
        rw [mergeIdx_nil_left]
        have hrec := ih (k + 1)
        rw [hK, mergeIdx_nil_left] at hrec
        simp [hrec]
      | cons q K' =>
        obtain ⟨i, xv⟩ := q
        have hq : k + 1 ≤ i := by
          have hqm : (i, xv) ∈ enumFrom (k + 1) ls :=
            List.mem_of_mem_filter (by rw [hK]; exact List.mem_cons_self _ _)
          exact enumFrom_bound ls (k + 1) (i, xv) hqm
        rw [mergeIdx_cons_cons, if_neg (by omega)]
        have hrec := ih (k + 1)
        rw [hK] at hrec
        rw [hrec]
    · rw [List.filter_cons_of_pos (by simp [hP]), List.filter_cons_of_neg (by simpa using hP)]
      cases hR : (enumFrom (k + 1) ls).filter (fun p => P p.2) with
      | nil =>
        rw [mergeIdx_nil_right]
        have hrec := ih (k + 1)
        rw [hR, mergeIdx_nil_right] at hrec
        simp [hrec]
      | cons q R' =>
        obtain ⟨j, yv⟩ := q
        have hq : k + 1 ≤ j := by
          have hqm : (j, yv) ∈ enumFrom (k + 1) ls :=
            List.mem_of_mem_filter (by rw [hR]; exact List.mem_cons_self _ _)
          exact enumFrom_bound ls (k + 1) (j, yv) hqm
        rw [mergeIdx_cons_cons, if_pos (by omega)]
        have hrec := ih (k + 1)
        rw [hR] at hrec
        rw [hrec]

/-- Claim C5, counterexample: on `"x\n[^2]:\n"` the marker line is removed
but no footnote is extracted, so reinserting one definition line per
*extracted footnote* (here: none) yields `"x\n"`, not the original text. -/
theorem claim_C5_counterexample :
    extractFootnotes ("x\n[^2]:\n".toList) = [] ∧
    removeFootnoteLines ("x\n[^2]:\n".toList) = ("x\n".toList) := by
  refine ⟨by decide, by decide⟩

/-- Claim C5 (amended): cleaning deletes exactly whole marker lines, so
reinserting each *removed line* at its original position reproduces the raw
text exactly; the extracted-footnote list need not be in bijection with the
removed lines (an empty-bodied marker line is removed but yields no footnote).
The documented example behaves as stated. -/
theorem claim_C5 :
    (∀ t : List Char,
        joinAll (mergeIdx ((enumFrom 0 (linesKeepEol t)).filter (fun p => !(isMarkerLine p.2)))
                          ((enumFrom 0 (linesKeepEol t)).filter (fun p => isMarkerLine p.2))) = t) ∧
    (∀ t : List Char, removeFootnoteLines t =
        joinAll (((enumFrom 0 (linesKeepEol t)).filter (fun p => !(isMarkerLine p.2))).map Prod.snd)) ∧
    extractFootnotes ("text\n[^1]: a note\nmore\n".toList) = [(1, "a note".toList)] ∧
    removeFootnoteLines ("text\n[^1]: a note\nmore\n".toList) = ("text\nmore\n".toList) := by
  refine ⟨?_, ?_, by decide, by decide⟩
  · intro t
    rw [merge_partition isMarkerLine (linesKeepEol t) 0, joinAll_linesKeepEol t]
  · intro t
    rw [enumFrom_filter_map (fun l => !(isMarkerLine l)) (linesKeepEol t) 0]
    rfl

/-! ## Claim C7: the footnote-registration script block -/

set_option maxRecDepth 40000 in
/-- Claim C7: the script block is present iff the post has footnotes; when
present it consists of one `window.addFootnote(slug, number, text)` call per
footnote in list order — which is the source-definition order produced by
`extractFootnotes` — with the text encoded by the `json.dumps` string-literal
encoder.  The concrete article (with definition lines numbered 2 then 1 and a
quote and a backslash in the texts) shows source-order preservation and the
escaping; the footnote-free article shows the block absent. -/
theorem claim_C7 :
    (∀ (slug : List Char) (fns : List (Nat × List Char)),
        (scriptBlock slug fns).isEmpty = fns.isEmpty) ∧
    (∀ (slug : List Char) (f : Nat × List Char) (fns : List (Nat × List Char)),
        scriptBlock slug (f :: fns) =
          "<script>document.addEventListener('DOMContentLoaded', function() \x7b\n".toList ++
            joinSep ("\n".toList) ((f :: fns).map (addFootnoteCall slug)) ++
            "\n\x7d);</script>".toList) ∧
    articleHtml ("a.md".toList) ("x\n[^2]: be\"ta\n[^1]: al\\pha\n".toList) =
      ("<article id=\"a\">\nx<br>\n<script>document.addEventListener('DOMContentLoaded', function() \x7b\n  window.addFootnote(\"a\", 2, \"be\\\"ta\");\n  window.addFootnote(\"a\", 1, \"al\\\\pha\");\n\x7d);</script>\n</article>".toList) ∧
    articleHtml ("b.md".toList) ("y\n".toList) =
      ("<article id=\"b\">\ny<br>\n\n</article>".toList) := by
  refine ⟨?_, ?_, by decide, by decide⟩
  · intro slug fns
    cases fns with
    | nil => rfl
    | cons f fns' => rfl
  · intro slug f fns
    rfl

/-! ## Claim C8: missing resources are fatal -/

/-- Claim C8: a missing blogs directory, or a missing template file, makes the
run terminate with exit code 1 and the corresponding report, and the result
carries no output page (it is an `Except.error`, never an `Except.ok`); a
missing directory is reported even before the template is considered. -/
theorem claim_C8 :
    (∀ (bp tp : List Char) (template : Option (List Char)),
        runGenerator bp tp none template =
          Except.error ("blogs folder not found: ".toList ++ bp, 1)) ∧
    (∀ (bp tp : List Char) (files : List (List Char × List Char)),
        runGenerator bp tp (some files) none =
          Except.error ("Template not found: ".toList ++ tp, 1)) :=
  ⟨fun _ _ _ => rfl, fun _ _ _ => rfl⟩

/-! ## Claim C9: empty-bodied footnote markers -/

/-- Claim C9, counterexample: the line `[^1]:` (empty body, immediately end of
line) in `"[^1]:\nabc\n"` *does* yield a footnote entry — `\s*` in the
extraction pattern crosses the line break and takes the next line `abc` as the
text — while the removal still deletes only the marker line (so `abc` also
stays in the cleaned body). -/
theorem claim_C9_counterexample :
    extractFootnotes ("[^1]:\nabc\n".toList) = [(1, "abc".toList)] ∧
    removeFootnoteLines ("[^1]:\nabc\n".toList) = ("abc\n".toList) :=
  ⟨by decide, by decide⟩

/-- Claim C9 (amended): an empty-bodied marker line is always removed from the
cleaned text; it yields no Footnote entry only when no non-whitespace
character follows anywhere later in the text (e.g. at the end of the input, or
followed only by newlines) — otherwise the extraction pattern's `\s*` crosses
the line break and a Footnote is produced whose text is taken from the first
following non-blank line (which also remains in the cleaned text). -/
theorem claim_C9 :
    extractFootnotes ("[^1]:\n".toList) = [] ∧
    removeFootnoteLines ("[^1]:\n".toList) = [] ∧
    extractFootnotes ("a\n[^3]:\n".toList) = [] ∧
    removeFootnoteLines ("a\n[^3]:\n".toList) = ("a\n".toList) ∧
    extractFootnotes ("[^1]:\n\n\nend\n".toList) = [(1, "end".toList)] ∧
    removeFootnoteLines ("[^1]:\n\n\nend\n".toList) = ("\n\nend\n".toList) :=
  ⟨by decide, by decide, by decide, by decide, by decide, by decide⟩
